import Mathlib

/-!
Verification of the type-inference engine in `numba/typeinfer.py` (CPA-style
constraint solver).  The Python classes `TypeVar`, `ConstraintNetwork`, the
constraint variants and the relevant `TypeInferer` methods are shallowly
embedded as executable Lean definitions; the typing context (the external
lattice collaborator) is a record of function parameters.
-/

/- Shallow model of the `numba.types` values the engine inspects by shape.
`atom` covers scalar types such as `int64`; `iterable y` is a canonical
`IterableType` whose `iterator_type.yield_type` is `y`; `boundFunction this id`
carries its receiver (`this`) and an opaque identity.  `TyList` is the list
of a heterogeneous tuple's element types (a first-class list so that
decidable equality can be derived). -/
mutual
inductive Ty where
  | atom (name : String)
  | undef
  | noneTy
  | uniTuple (dtype : Ty) (count : Nat)
  | tupleTy (elems : TyList)
  | pair (first second : Ty)
  | listTy (elem : Ty)
  | setTy (elem : Ty)
  | iterable (yieldTy : Ty)
  | boundFunction (this : Ty) (fid : Nat)
  | functionTy (fid : Nat)
  deriving DecidableEq, Repr
inductive TyList where
  | nil
  | cons (head : Ty) (tail : TyList)
  deriving DecidableEq, Repr
end

/-- View a `TyList` as an ordinary list. -/
def TyList.toList : TyList → List Ty
  | .nil => []
  | .cons t ts => t :: ts.toList

/-- Build a `TyList` from an ordinary list. -/
def TyList.ofList : List Ty → TyList
  | [] => .nil
  | t :: ts => .cons t (TyList.ofList ts)

/-- Length of a `TyList`. -/
def TyList.length : TyList → Nat
  | .nil => 0
  | .cons _ ts => ts.length + 1

/- `Type.is_precise` of the external types module, modelled structurally:
`undefined` is imprecise and containers are precise iff their parts are. -/
mutual
def Ty.is_precise : Ty → Bool
  | .atom _ => true
  | .undef => false
  | .noneTy => true
  | .uniTuple d _ => d.is_precise
  | .tupleTy es => TyList.allPrecise es
  | .pair a b => a.is_precise && b.is_precise
  | .listTy e => e.is_precise
  | .setTy e => e.is_precise
  | .iterable y => y.is_precise
  | .boundFunction t _ => t.is_precise
  | .functionTy _ => true
def TyList.allPrecise : TyList → Bool
  | .nil => true
  | .cons t ts => t.is_precise && TyList.allPrecise ts
end

/-- `isinstance(tp, types.BaseTuple)`. -/
def Ty.isBaseTuple : Ty → Bool
  | .uniTuple _ _ => true
  | .tupleTy _ => true
  | _ => false

/-- `len(tp)` for a `BaseTuple`. -/
def Ty.tupleLen : Ty → Nat
  | .uniTuple _ c => c
  | .tupleTy es => es.length
  | _ => 0

/-- `.types` of a `BaseTuple` (the ordered element types). -/
def Ty.tupleTypes : Ty → List Ty
  | .uniTuple d c => List.replicate c d
  | .tupleTy es => es.toList
  | _ => []

/-- `isinstance(tp, types.IterableType)`: homogeneous containers, the
canonical iterable carrier, and homogeneous tuples are iterable. -/
def Ty.isIterable : Ty → Bool
  | .iterable _ => true
  | .listTy _ => true
  | .setTy _ => true
  | .uniTuple _ _ => true
  | _ => false

/-- `tp.iterator_type.yield_type` for an `IterableType`. -/
def Ty.iterYield : Ty → Ty
  | .iterable y => y
  | .listTy e => e
  | .setTy e => e
  | .uniTuple d _ => d
  | t => t

/-- The payload of a `TypingError` (the message is kept structured instead of
as formatted text). -/
inductive ErrKind where
  | noConversion (tp cur : Ty) (var : String)
  | cannotUnify (cur tp : Ty) (var : String)
  | lockNoConversion (tp cur : Ty) (var : String)
  | invalidUsage (fnty : Ty)
  | internal (traceback : String)
  deriving DecidableEq, Repr

/-- A `TypingError` instance: structured message plus the `loc` keyword. -/
structure TErr where
  kind : ErrKind
  loc : Option Nat
  deriving DecidableEq, Repr

/-- A Python exception as seen by `ConstraintNetwork.propagate`: either a
(recoverable) `TypingError` or any other exception, carried with a rendering
of its traceback. -/
inductive Exn where
  | typing (e : TErr)
  | other (traceback : String)
  deriving DecidableEq, Repr

/-- The `TypeVar` cell: `self.type`, `self.locked`, `self.define_loc`.
The `var` name field of the Python object is kept alongside only where a
map entry provides it. -/
structure TypeVar where
  type : Option Ty
  locked : Bool
  define_loc : Option Nat
  deriving DecidableEq, Repr

/-- `TypeVar.defined`. -/
def TypeVar.defined (self : TypeVar) : Bool := self.type.isSome

/-- A resolved call signature (`numba.typing.Signature`): `return_type`,
positional `args` and the optional bound receiver `recvr`. -/
structure Signature where
  return_type : Ty
  args : List Ty
  recvr : Option Ty
  deriving DecidableEq, Repr

/-- The external typing context (lattice collaborator): only the functions
the embedded code consults.  `can_convert` yields an opaque conversion rank. -/
structure Context where
  unify_pairs : Ty → Ty → Option Ty
  can_convert : Ty → Ty → Option Nat
  resolve_function_type : Ty → List Ty → List (String × Ty) → Option Signature

/-- `TypeVar.add_type(tp, loc)`, returning the updated cell and the returned
`self.type`.  A locked cell whose `type` is `None` cannot arise (lock always
assigns a type); there the Python code would hand `None` to `can_convert`,
modelled as an internal error. -/
def TypeVar.add_type (ctx : Context) (self : TypeVar) (var : String) (tp : Ty)
    (loc : Option Nat) : Except TErr (TypeVar × Ty) :=
  if self.locked then
    match self.type with
    | some cur =>
      if tp ≠ cur then
        match ctx.can_convert tp cur with
        | none => .error ⟨.noConversion tp cur var, loc⟩
        | some _ => .ok (self, cur)
      else .ok (self, cur)
    | none => .error ⟨.internal "can_convert applied to None", loc⟩
  else
    match self.type with
    | some cur =>
      match ctx.unify_pairs cur tp with
      | none => .error ⟨.cannotUnify cur tp var, loc⟩
      | some unified => .ok ({ self with type := some unified }, unified)
    | none =>
      -- First time definition
      .ok ({ self with type := some tp, define_loc := loc }, tp)

/-- `TypeVar.lock(tp, loc)`.  `assert not self.locked` is modelled as an
internal error. -/
def TypeVar.lock (ctx : Context) (self : TypeVar) (var : String) (tp : Ty)
    (loc : Option Nat) : Except TErr TypeVar :=
  if self.locked then .error ⟨.internal "assert not self.locked", loc⟩
  else
    match self.type with
    | some cur =>
      if (ctx.can_convert cur tp).isNone then
        .error ⟨.lockNoConversion tp cur var, loc⟩
      else
        .ok { type := some tp, locked := true,
              define_loc := self.define_loc.orElse (fun _ => loc) }
    | none =>
      .ok { type := some tp, locked := true,
            define_loc := self.define_loc.orElse (fun _ => loc) }

/-- `TypeVar.union(other, loc)`: add the other cell's type if defined. -/
def TypeVar.union (ctx : Context) (self other : TypeVar) (var : String)
    (loc : Option Nat) : Except TErr (TypeVar × Option Ty) :=
  match other.type with
  | some t =>
    match TypeVar.add_type ctx self var t loc with
    | .error e => .error e
    | .ok (self', _) => .ok (self', self'.type)
  | none => .ok (self, self.type)

/-- Association-list lookup (Python `dict.get`). -/
def alistFind {α : Type} : List (String × α) → String → Option α
  | [], _ => none
  | p :: rest, name => if p.1 = name then some p.2 else alistFind rest name

/-- Association-list update, appending at the end when the key is new
(Python dicts keep insertion order). -/
def alistSet {α : Type} : List (String × α) → String → α → List (String × α)
  | [], name, v => [(name, v)]
  | p :: rest, name, v =>
    if p.1 = name then (name, v) :: rest else p :: alistSet rest name v

/-- The fresh cell `TypeVarMap.__getitem__` creates on first access. -/
def freshTypeVar : TypeVar := ⟨none, false, none⟩

/-- Insertion step for sorting the typevar items by variable name. -/
def insertByName (p : String × TypeVar) :
    List (String × TypeVar) → List (String × TypeVar)
  | [] => [p]
  | q :: rest => if p.1 ≤ q.1 then p :: q :: rest else q :: insertByName p rest

/-- `sorted(self.typevars.items())`: items in ascending variable-name order. -/
def sortByName (l : List (String × TypeVar)) : List (String × TypeVar) :=
  l.foldr insertByName []

/-- `TypeInferer.get_state_token`:
`[tv.type for name, tv in sorted(self.typevars.items())]` — the current types
in name order, without the names. -/
def TypeInferer.get_state_token (tvs : List (String × TypeVar)) :
    List (Option Ty) :=
  (sortByName tvs).map (fun p => p.2.type)

/-- Modelled from the spec: the state token as the spec describes it, "the
ordered sequence of `(name, current_type)` pairs sorted by name". -/
def state_token_pairs (tvs : List (String × TypeVar)) :
    List (String × Option Ty) :=
  (sortByName tvs).map (fun p => (p.1, p.2.type))

/-- `Propagate` and `GetAttrConstraint` are the two constraints that register
a refine hook in `refine_map`; the fields each `refine` method reads. -/
inductive Refiner where
  | propagateCon (src : String) (loc : Option Nat)
  | getattrCon (valueName : String) (loc : Option Nat)
  deriving DecidableEq, Repr

/-- The mutable `TypeInferer` attributes the embedded methods touch:
`self.typevars` (in insertion order) and `self.refine_map`. -/
structure InferState where
  typevars : List (String × TypeVar)
  refine_map : List (String × Refiner)
  deriving DecidableEq, Repr

/-- `self.typevars[var]`: look the cell up, creating a fresh undefined cell
on first access (`TypeVarMap.__getitem__`). -/
def InferState.getTypevar (s : InferState) (var : String) :
    TypeVar × InferState :=
  match alistFind s.typevars var with
  | some tv => (tv, s)
  | none =>
    (freshTypeVar, { s with typevars := s.typevars ++ [(var, freshTypeVar)] })

/- `TypeInferer.add_type`, `TypeInferer.propagate_refined_type` and the
`refine` methods of `Propagate` and `GetAttrConstraint`.  The Python methods
recurse into each other through the refine hooks (a cascade that may in
principle cycle), so every embedded function takes a fuel argument; `none`
means the fuel ran out before the cascade finished. -/
mutual
def TypeInferer.add_type (ctx : Context) :
    Nat → InferState → String → Ty → Option Nat → Bool →
    Option (Except TErr InferState)
  | 0, _, _, _, _, _ => none
  | fuel+1, s0, var, tp, loc, unless_locked =>
    let (tv, s) := s0.getTypevar var
    if unless_locked && tv.locked then some (.ok s)
    else
      let oldty := tv.type
      match TypeVar.add_type ctx tv var tp loc with
      | .error e => some (.error e)
      | .ok (tv', unified) =>
        let s' := { s with typevars := alistSet s.typevars var tv' }
        if some unified ≠ oldty then
          TypeInferer.propagate_refined_type ctx fuel s' var unified
        else some (.ok s')
def TypeInferer.propagate_refined_type (ctx : Context) :
    Nat → InferState → String → Ty → Option (Except TErr InferState)
  | 0, _, _, _ => none
  | fuel+1, s, updated_var, updated_type =>
    match alistFind s.refine_map updated_var with
    | none => some (.ok s)
    | some con => Refiner.refine ctx fuel con s updated_type
def Refiner.refine (ctx : Context) :
    Nat → Refiner → InferState → Ty → Option (Except TErr InferState)
  | 0, _, _, _ => none
  | fuel+1, .propagateCon src loc, s, target_type =>
    -- Do not back-propagate to locked variables (e.g. constants)
    TypeInferer.add_type ctx fuel s src target_type loc true
  | fuel+1, .getattrCon valueName loc, s, target_type =>
    match target_type with
    | .boundFunction recvr _ =>
      match TypeInferer.add_type ctx fuel s valueName recvr loc false with
      | none => none
      | some (.error e) => some (.error e)
      | some (.ok s') =>
        match alistFind s'.refine_map valueName with
        | none => some (.ok s')
        | some con => Refiner.refine ctx fuel con s' recvr
    | _ => some (.ok s)
end

/-- The body of `TypeInferer.propagate`'s fixed-point loop: run one pass of
the constraint network (`step`, kept abstract), recompute the state token and
stop as soon as it did not change, keeping that final pass's errors.  The
initial `oldtoken = None` of the source merely forces a first pass, which the
recursion also always performs.  Fuel bounds the number of passes. -/
def TypeInferer.propagateLoop (step : InferState → InferState × List TErr) :
    Nat → InferState → Option (InferState × List TErr)
  | 0, _ => none
  | fuel+1, s =>
    let (s', errors) := step s
    if TypeInferer.get_state_token s'.typevars
        = TypeInferer.get_state_token s.typevars then
      some (s', errors)
    else TypeInferer.propagateLoop step fuel s'

/-- `TypeInferer.propagate`: the loop above followed by
`if errors: raise errors[0]` — the raised error is the head of the final
pass's error list, `none` when that pass collected no error. -/
def TypeInferer.propagate (step : InferState → InferState × List TErr)
    (fuel : Nat) (s : InferState) : Option (InferState × Option TErr) :=
  (TypeInferer.propagateLoop step fuel s).map (fun r => (r.1, r.2.head?))

/-- Iterated passes: the state after `k` firings of the network. -/
def passIter (step : InferState → InferState × List TErr) :
    Nat → InferState → InferState
  | 0, s => s
  | k+1, s => passIter step k (step s).1

/-- `itertools.product(*tsets)`: all picks of one element per list, the last
position varying fastest. -/
def itertoolsProduct {α : Type} : List (List α) → List (List α)
  | [] => [[]]
  | ts :: rest =>
    (ts.map (fun t => (itertoolsProduct rest).map (fun vs => t :: vs))).flatten

/-- The loop body of `BuildTupleConstraint.__call__` over the Cartesian
product of the item type-sets, returning the types added to the target in
order: `UniTuple` when the candidate element types are nonempty and all
equal (`if vals and all(vals[0] == v for v in vals)`), `Tuple` otherwise —
"empty tuples fall here as well". -/
def BuildTupleConstraint.fireAux : List (List Ty) → List Ty
  | [] => []
  | vals :: rest =>
    (match vals with
     | [] => Ty.tupleTy (TyList.ofList [])
     | v0 :: _ =>
       if vals.all (fun v => v = v0) then Ty.uniTuple v0 vals.length
       else Ty.tupleTy (TyList.ofList vals)) :: BuildTupleConstraint.fireAux rest

/-- `BuildTupleConstraint.__call__`, as the sequence of types added to the
target cell, one per element of the Cartesian product. -/
def BuildTupleConstraint.fire (tsets : List (List Ty)) : List Ty :=
  BuildTupleConstraint.fireAux (itertoolsProduct tsets)

/-- `ExhaustIterConstraint.__call__` over the candidate types of the iterator
variable: the types added to the target before the loop finished or aborted,
and the exception that aborted it, if any.  A `BaseTuple` of the right arity
is added as-is; a `BaseTuple` of any other arity raises `ValueError` (not a
`TypingError`); an `IterableType` adds `UniTuple(yield_type, count)`; any
other candidate is skipped. -/
def ExhaustIterConstraint.fire (iteratorName : String) (count : Nat) :
    List Ty → List Ty × Option Exn
  | [] => ([], none)
  | tp :: rest =>
    if tp.isBaseTuple then
      if tp.tupleLen = count then
        let (added, exn) := ExhaustIterConstraint.fire iteratorName count rest
        (tp :: added, exn)
      else
        ([], some (.other ("ValueError: wrong tuple length for "
          ++ iteratorName ++ ": expected " ++ toString count
          ++ ", got " ++ toString tp.tupleLen)))
    else if tp.isIterable then
      let (added, exn) := ExhaustIterConstraint.fire iteratorName count rest
      (Ty.uniTuple tp.iterYield count :: added, exn)
    else
      ExhaustIterConstraint.fire iteratorName count rest

/-- `PairFirstConstraint.__call__`: the types added to the target — the first
component of every `Pair` candidate; non-pairs are skipped
("XXX is this an error?") and nothing is raised. -/
def PairFirstConstraint.fire : List Ty → List Ty
  | [] => []
  | tp :: rest =>
    match tp with
    | .pair a _ => a :: PairFirstConstraint.fire rest
    | _ => PairFirstConstraint.fire rest

/-- `PairSecondConstraint.__call__`: likewise with the second component. -/
def PairSecondConstraint.fire : List Ty → List Ty
  | [] => []
  | tp :: rest =>
    match tp with
    | .pair _ b => b :: PairSecondConstraint.fire rest
    | _ => PairSecondConstraint.fire rest

/-- `TypeVar.getone` after a definedness check (the `assert` cannot fire when
every consulted cell is defined); `undef` is a dead default. -/
def TypeVar.getoneD (tv : TypeVar) : Ty := tv.type.getD Ty.undef

/-- `self.typevars[name]` for read-only access inside `fold_arg_vars`:
a missing name behaves as a fresh undefined cell. -/
def typevarsRead (tvs : List (String × TypeVar)) (name : String) : TypeVar :=
  (alistFind tvs name).getD freshTypeVar

/-- `fold_arg_vars(typevars, args, vararg, kws)`: `.ok none` models the bail
when some argument cell is undefined; a vararg whose resolved type is not a
`BaseTuple` raises `TypeError` (an `Exn.other`, not a `TypingError`);
otherwise the vararg tuple's elements are spliced onto the positional
arguments and the remaining suffix is zipped with the keyword names. -/
def fold_arg_vars (tvs : List (String × TypeVar)) (args : List String)
    (vararg : Option String) (kws : List (String × String)) :
    Except Exn (Option (List Ty × List (String × Ty))) :=
  let n_pos_args := args.length
  let kwds := kws.map (fun p => p.1)
  let argtypes := args.map (typevarsRead tvs)
    ++ kws.map (fun p => typevarsRead tvs p.2)
    ++ (match vararg with | some v => [typevarsRead tvs v] | none => [])
  if ¬ argtypes.all TypeVar.defined then .ok none
  else
    let argtys := argtypes.map TypeVar.getoneD
    let pos_args := argtys.take n_pos_args
    match vararg with
    | some _ =>
      match argtys.getLast? with
      | some last =>
        if last.isBaseTuple then
          .ok (some (pos_args ++ last.tupleTypes,
                     kwds.zip (argtys.dropLast.drop n_pos_args)))
        else
          .error (.other "TypeError: *args in function call should be a tuple")
      | none => .error (.other "unreachable: vararg implies a nonempty list")
    | none => .ok (some (pos_args, kwds.zip (argtys.drop n_pos_args)))

/-- `context.resolve_value_type(print)` — asserted non-`None` in the source;
an opaque callable type. -/
def printFnty : Ty := Ty.functionTy 0

/-- `PrintConstraint.__call__`: fold the argument cells (bailing leaves
`self.signature` untouched), then store whatever `resolve_call` returns —
possibly `None` — without any invalid-call check.  `print` is never a
`RecursiveCall`, so `resolve_call` is `context.resolve_function_type`.
`prevSignature` is the current value of the `signature` attribute
(`none` = never assigned). -/
def PrintConstraint.fire (ctx : Context) (tvs : List (String × TypeVar))
    (args : List String) (vararg : Option String)
    (prevSignature : Option (Option Signature)) :
    Except Exn (Option (Option Signature)) :=
  match fold_arg_vars tvs args vararg [] with
  | .error e => .error e
  | .ok none => .ok prevSignature
  | .ok (some (pos_args, kw_args)) =>
    .ok (some (ctx.resolve_function_type printFnty pos_args kw_args))

/-- The tail of `CallConstraint.resolve` (source lines 385-421) given the
outcome `sigOpt` of `typeinfer.resolve_call`: a `None` signature raises the
invalid-usage `TypingError`; otherwise `sig.return_type` is added to the
target cell and, when the return type is imprecise and the (now current)
target type absorbs it under `unify_pairs`, the stored signature's return
type is rewritten to the target type.  The bound-method receiver refinement
(lines 400-406) touches only the callee's cell, not the target cell or the
signature, and is modelled with the refine machinery instead. -/
def CallConstraint.resolveModel (ctx : Context) (targetName : String)
    (sigOpt : Option Signature) (target : TypeVar) (fnty : Ty)
    (loc : Option Nat) : Except TErr (TypeVar × Signature) :=
  match sigOpt with
  | none => .error ⟨.invalidUsage fnty, loc⟩
  | some sig =>
    match TypeVar.add_type ctx target targetName sig.return_type loc with
    | .error e => .error e
    | .ok (target', _) =>
      let sig' :=
        if ¬ sig.return_type.is_precise then
          match target'.type with   -- `if target.defined:`
          | some targetty =>
            if ctx.unify_pairs targetty sig.return_type = some targetty then
              { sig with return_type := targetty }
            else sig
          | none => sig
        else sig
      .ok (target', sig')

/-- A constraint as `ConstraintNetwork.propagate` sees it: its source
location and its firing behavior (the state reached, which keeps the side
effects performed before any raise, and the exception raised, if any). -/
structure Constraint (σ : Type) where
  loc : Option Nat
  fire : σ → σ × Option Exn

/-- `ConstraintNetwork.propagate(typeinfer)`: fire every constraint once in
insertion order; a `TypingError` is captured into the returned list, any
other exception is wrapped into a `TypingError` carrying the constraint's
location and the traceback text, and captured likewise.  Nothing is ever
re-raised. -/
def ConstraintNetwork.propagate {σ : Type} :
    List (Constraint σ) → σ → σ × List TErr
  | [], s => (s, [])
  | c :: rest, s =>
    let (s', exn) := c.fire s
    let captured : List TErr :=
      match exn with
      | none => []
      | some (.typing e) => [e]
      | some (.other tb) => [⟨.internal tb, c.loc⟩]
    let (s'', errs) := ConstraintNetwork.propagate rest s'
    (s'', captured ++ errs)

/-- Each constraint paired with the state it fires at, in firing order. -/
def firedStates {σ : Type} (s : σ) :
    List (Constraint σ) → List (Constraint σ × σ)
  | [] => []
  | c :: rest => (c, s) :: firedStates ((c.fire s).1) rest

/-- What a single firing contributes to the captured error list. -/
def captureOf {σ : Type} (p : Constraint σ × σ) : Option TErr :=
  match (p.1.fire p.2).2 with
  | none => none
  | some (.typing e) => some e
  | some (.other tb) => some ⟨.internal tb, p.1.loc⟩

/-- A cell's evolution under a sequence of `TypeVar.add_type` events — the
only transitions constraint propagation applies to a cell.  A raising call
leaves the cell as it was (the exception propagates out of the constraint)
and later constraints still fire on it. -/
def applyAdds (ctx : Context) (var : String) (s : TypeVar) :
    List (Ty × Option Nat) → TypeVar
  | [] => s
  | (tp, loc) :: rest =>
    match TypeVar.add_type ctx s var tp loc with
    | .ok (s', _) => applyAdds ctx var s' rest
    | .error _ => applyAdds ctx var s rest

/-- Claim C1's description of `TypeVar.add_type`, written from its words:
locked and `T ≠ current` raises exactly when `can_convert(T, current)` is
`None` and never changes the cell; unlocked and undefined first-assigns and
records `define_loc`; unlocked and defined joins with `unify_pairs`, raising
"cannot unify" exactly when the join is `None`.  The impossible locked cell
without a type is carried over unchanged from the code model. -/
def addTypeClaimC1 (ctx : Context) (self : TypeVar) (var : String) (tp : Ty)
    (loc : Option Nat) : Except TErr (TypeVar × Ty) :=
  if self.locked then
    match self.type with
    | some cur =>
      if tp ≠ cur ∧ ctx.can_convert tp cur = none then
        .error ⟨.noConversion tp cur var, loc⟩
      else .ok (self, cur)
    | none => .error ⟨.internal "can_convert applied to None", loc⟩
  else
    match self.type with
    | some cur =>
      match ctx.unify_pairs cur tp with
      | some unified => .ok ({ self with type := some unified }, unified)
      | none => .error ⟨.cannotUnify cur tp var, loc⟩
    | none => .ok ({ self with type := some tp, define_loc := loc }, tp)

/-- The corrected per-candidate rule of `BuildTupleConstraint`: `UniTuple`
only for a nonempty all-equal candidate; the empty candidate (sole element
of the empty Cartesian product) yields `Tuple(())` like every other
non-uniform candidate. -/
def buildTupleStepAmended (vals : List Ty) : Ty :=
  match vals with
  | [] => Ty.tupleTy TyList.nil
  | v0 :: _ =>
    if vals.all (fun v => v = v0) then Ty.uniTuple v0 vals.length
    else Ty.tupleTy (TyList.ofList vals)

/-- A lattice stub: left-biased join, every conversion allowed, no callable
resolution.  Used to instantiate theorems at concrete inputs. -/
def ctxTriv : Context :=
  ⟨fun a _ => some a, fun _ _ => some 0, fun _ _ _ => none⟩

/-- A lattice stub whose join is constantly `atom "A"`: exhibits that a
`lock` overwrite is not expressible as a join. -/
def ctxConstA : Context :=
  ⟨fun _ _ => some (Ty.atom "A"), fun _ _ => some 0, fun _ _ _ => none⟩

/-- A lattice stub with right-biased join (the join is the newly added
type), every conversion allowed. -/
def ctxRight : Context :=
  ⟨fun _ b => some b, fun _ _ => some 0, fun _ _ _ => none⟩

/-- The constraint-network pass that does nothing and reports no error. -/
def stepId : InferState → InferState × List TErr := fun s => (s, [])

/-- C1: `TypeVar.add_type(T, loc)` behaves exactly as claimed — locked cells
are never changed and raise precisely when `T` differs from the current type
and `can_convert(T, current)` is `None`; an unlocked undefined cell is
first-assigned `T` with `define_loc` recorded; an unlocked defined cell is
joined with `unify_pairs`, raising "cannot unify" exactly when the join is
`None`.  Stated as extensional equality with `addTypeClaimC1`, the claim
written out as a function, on every cell satisfying the evident invariant
that a locked cell has a type. -/
theorem claim_c1 (ctx : Context) (self : TypeVar) (var : String) (tp : Ty)
    (loc : Option Nat) (hwf : self.locked = true → self.type ≠ none) :
    TypeVar.add_type ctx self var tp loc = addTypeClaimC1 ctx self var tp loc := by
  unfold TypeVar.add_type addTypeClaimC1
  by_cases hl : self.locked
  · cases htype : self.type with
    | none => exact absurd htype (hwf hl)
    | some cur =>
      by_cases he : tp = cur
      · simp [hl, he]
      · cases hc : ctx.can_convert tp cur <;> simp [hl, he, hc]
  · cases htype : self.type with
    | none => simp [hl]
    | some cur => cases hu : ctx.unify_pairs cur tp <;> simp [hl, hu]

/-- C1 witness: the theorem applied to a concrete locked cell holding
`int64` while `float64` is added under the trivial lattice. -/
theorem claim_c1_witness :
    TypeVar.add_type ctxTriv ⟨some (.atom "int64"), true, some 0⟩ "x"
        (.atom "float64") (some 1)
      = addTypeClaimC1 ctxTriv ⟨some (.atom "int64"), true, some 0⟩ "x"
        (.atom "float64") (some 1) :=
  claim_c1 ctxTriv ⟨some (.atom "int64"), true, some 0⟩ "x"
    (.atom "float64") (some 1) (by decide)

/-- C2 counterexample: `get_state_token` is not the ordered sequence of
`(name, current_type)` pairs — it drops the names
(`[tv.type for name, tv in sorted(...)]`).  Two typevar maps over different
names with the same types have equal code tokens but distinct pair
sequences, so no reading of the computed token as that pair sequence is
possible. -/
theorem claim_c2_counterexample :
    TypeInferer.get_state_token [("a", ⟨some (.atom "int64"), false, none⟩)]
      = TypeInferer.get_state_token [("b", ⟨some (.atom "int64"), false, none⟩)]
    ∧ state_token_pairs [("a", ⟨some (.atom "int64"), false, none⟩)]
      ≠ state_token_pairs [("b", ⟨some (.atom "int64"), false, none⟩)] := by
  constructor
  · rfl
  · decide

/-- C2 amended: with the token being the name-sorted list of current types
(names dropped), `TypeInferer.propagate` behaves as claimed: it repeatedly
runs one pass of the network and recomputes the token, stopping at the
first pass after which the token is unchanged; the pass count `k` is the
least such (every earlier pass changed the token); the raised error is the
head of precisely that final pass's error list — `none` iff that pass
collected no errors — and the errors of every earlier pass do not appear. -/
theorem claim_c2_amended (step : InferState → InferState × List TErr)
    (fuel : Nat) (s s' : InferState) (eOpt : Option TErr)
    (h : TypeInferer.propagate step fuel s = some (s', eOpt)) :
    ∃ k, k < fuel
      ∧ s' = (step (passIter step k s)).1
      ∧ TypeInferer.get_state_token s'.typevars
          = TypeInferer.get_state_token (passIter step k s).typevars
      ∧ eOpt = ((step (passIter step k s)).2).head?
      ∧ ∀ j, j < k →
          TypeInferer.get_state_token ((step (passIter step j s)).1).typevars
            ≠ TypeInferer.get_state_token (passIter step j s).typevars := by
  induction fuel generalizing s with
  | zero => simp [TypeInferer.propagate, TypeInferer.propagateLoop] at h
  | succ n ih =>
    rw [TypeInferer.propagate, TypeInferer.propagateLoop] at h
    by_cases htok : TypeInferer.get_state_token (step s).1.typevars
        = TypeInferer.get_state_token s.typevars
    · refine ⟨0, Nat.succ_pos n, ?_, ?_, ?_, ?_⟩
      · simp [htok] at h
        simp [passIter, ← h.1]
      · simp [htok] at h
        simpa [passIter, ← h.1] using htok
      · simp [htok] at h
        simp [passIter, ← h.1, ← h.2]
      · intro j hj; omega
    · simp only [htok, if_false] at h
      obtain ⟨k, hk, h1, h2, h3, h4⟩ := ih (step s).1 (by
        rw [TypeInferer.propagate]; exact h)
      refine ⟨k + 1, Nat.succ_lt_succ hk, ?_, ?_, ?_, ?_⟩
      · simpa [passIter] using h1
      · simpa [passIter] using h2
      · simpa [passIter] using h3
      · intro j hj
        cases j with
        | zero => simpa [passIter] using htok
        | succ j' => simpa [passIter] using h4 j' (Nat.lt_of_succ_lt_succ hj)

/-- C2 witness: the amended theorem applied to the do-nothing pass on the
empty inference state, which reaches the fixed point in one pass with no
error. -/
theorem claim_c2_witness :
    ∃ k, k < 1
      ∧ (⟨[], []⟩ : InferState) = (stepId (passIter stepId k ⟨[], []⟩)).1
      ∧ TypeInferer.get_state_token (⟨[], []⟩ : InferState).typevars
          = TypeInferer.get_state_token (passIter stepId k ⟨[], []⟩).typevars
      ∧ (none : Option TErr) = ((stepId (passIter stepId k ⟨[], []⟩)).2).head?
      ∧ ∀ j, j < k →
          TypeInferer.get_state_token
              ((stepId (passIter stepId j ⟨[], []⟩)).1).typevars
            ≠ TypeInferer.get_state_token (passIter stepId j ⟨[], []⟩).typevars :=
  claim_c2_amended stepId 1 ⟨[], []⟩ ⟨[], []⟩ none (by decide)

/-- C3 counterexample: `TypeVar.lock` is a third kind of transition the
claim omits.  Under a lattice whose join is constantly `atom "A"` and whose
conversions all succeed, a cell currently holding `A` (point `p`) that is
then locked to `B` holds `B` afterwards (point `q`): not undefined, not its
type at `p`, and not `unify_pairs` of its type at `p` with any type at all —
so "every cell transitions only by first assignment or by the lattice join"
fails at any two points straddling a lock. -/
theorem claim_c3_counterexample :
    TypeVar.lock ctxConstA ⟨some (.atom "A"), false, some 0⟩ "x" (.atom "B")
        (some 1)
      = .ok ⟨some (.atom "B"), true, some 0⟩
    ∧ ¬ ((some (Ty.atom "B") : Option Ty) = none
        ∨ (some (Ty.atom "B") : Option Ty) = some (.atom "A")
        ∨ ∃ X, ctxConstA.unify_pairs (.atom "A") X = some (.atom "B")) := by
  constructor
  · rfl
  · rintro (h | h | ⟨X, hX⟩)
    · exact Option.noConfusion h
    · exact absurd (Option.some.inj h) (by decide)
    · exact absurd (Option.some.inj hX) (by decide)

/-- C3 amended: during constraint propagation a cell evolves only through
`TypeVar.add_type`, and there the claimed invariants do hold: a locked
cell's type never changes across any sequence of additions; definedness
never shrinks along any sequence of additions (so the state token never
loses an entry); and each successful single addition either leaves the type
unchanged, first-assigns the added type, or replaces it with
`unify_pairs(current, added)`.  (`lock`, exercised by the seeding and
constraint-building phases, may additionally overwrite an unlocked cell
with any convertible lock target, as the counterexample shows.) -/
theorem claim_c3_amended (ctx : Context) (var : String) (s : TypeVar)
    (ops : List (Ty × Option Nat)) :
    (s.locked = true → applyAdds ctx var s ops = s)
    ∧ (s.type ≠ none → (applyAdds ctx var s ops).type ≠ none)
    ∧ (∀ tp loc s2 r, TypeVar.add_type ctx s var tp loc = .ok (s2, r) →
        s2.type = s.type
        ∨ (s.type = none ∧ s2.type = some tp)
        ∨ (∃ cur u, s.type = some cur ∧ ctx.unify_pairs cur tp = some u
            ∧ s2.type = some u)) := by
  have hstep : ∀ (s : TypeVar) tp loc s2 r,
      TypeVar.add_type ctx s var tp loc = .ok (s2, r) →
      (s.locked = true → s2 = s)
      ∧ (s2.type = s.type
        ∨ (s.type = none ∧ s2.type = some tp)
        ∨ (∃ cur u, s.type = some cur ∧ ctx.unify_pairs cur tp = some u
            ∧ s2.type = some u)) := by
    intro s tp loc s2 r hres
    rw [TypeVar.add_type] at hres
    by_cases hl : s.locked
    · rcases htype : s.type with _ | cur
      · simp [hl, htype] at hres
      · by_cases he : tp = cur
        · simp [hl, htype, he] at hres
          obtain ⟨rfl, rfl⟩ := hres
          exact ⟨fun _ => rfl, Or.inl htype⟩
        · cases hc : ctx.can_convert tp cur <;> simp [hl, htype, he, hc] at hres
          obtain ⟨rfl, rfl⟩ := hres
          exact ⟨fun _ => rfl, Or.inl htype⟩
    · rcases htype : s.type with _ | cur
      · simp [hl, htype] at hres
        obtain ⟨rfl, rfl⟩ := hres
        exact ⟨fun h => absurd h hl, Or.inr (Or.inl ⟨rfl, rfl⟩)⟩
      · cases hu : ctx.unify_pairs cur tp <;> simp [hl, htype, hu] at hres
        obtain ⟨rfl, rfl⟩ := hres
        exact ⟨fun h => absurd h hl,
          Or.inr (Or.inr ⟨cur, _, rfl, hu, rfl⟩)⟩
  refine ⟨?_, ?_, fun tp loc s2 r hres => (hstep s tp loc s2 r hres).2⟩
  · intro hl
    induction ops generalizing s with
    | nil => rfl
    | cons op rest ih =>
      rw [applyAdds]
      rcases hres : TypeVar.add_type ctx s var op.1 op.2 with e | ⟨s2, r⟩
      · exact ih s hl
      · rw [(hstep s op.1 op.2 s2 r hres).1 hl]
        exact ih s hl
  · intro hdef
    induction ops generalizing s with
    | nil => exact hdef
    | cons op rest ih =>
      rw [applyAdds]
      rcases hres : TypeVar.add_type ctx s var op.1 op.2 with e | ⟨s2, r⟩
      · exact ih s hdef
      · refine ih s2 ?_
        rcases (hstep s op.1 op.2 s2 r hres).2 with h | ⟨_, h⟩ | ⟨_, _, _, _, h⟩
        · rw [h]; exact hdef
        · rw [h]; exact Option.noConfusion
        · rw [h]; exact Option.noConfusion

/-- C3 witness: the amended theorem applied to a concrete defined unlocked
cell and one addition under the trivial lattice — definedness is kept. -/
theorem claim_c3_witness :
    (applyAdds ctxTriv "x" ⟨some (.atom "int64"), false, none⟩
        [(.atom "float64", some 3)]).type ≠ none :=
  (claim_c3_amended ctxTriv "x" ⟨some (.atom "int64"), false, none⟩
    [(.atom "float64", some 3)]).2.1 (by decide)

/-- C4: in `CallConstraint.resolve`, after `sig.return_type` has been added
to the target cell, the stored signature's return type is rewritten to the
target's (now current) type exactly when the return type is imprecise and
the defined target type absorbs it (`unify_pairs(targetty, return_type) ==
targetty`); in every other case the signature keeps its original return
type, and its other fields are never touched.  The target cell is always
defined at the check (the preceding `add_type` succeeded). -/
theorem claim_c4 (ctx : Context) (tname : String) (sig : Signature)
    (target : TypeVar) (fnty : Ty) (loc : Option Nat) (target' : TypeVar)
    (sig' : Signature)
    (h : CallConstraint.resolveModel ctx tname (some sig) target fnty loc
      = .ok (target', sig')) :
    sig'.args = sig.args
    ∧ sig'.recvr = sig.recvr
    ∧ (∀ targetty, sig.return_type.is_precise = false →
        target'.type = some targetty →
        ctx.unify_pairs targetty sig.return_type = some targetty →
        sig'.return_type = targetty)
    ∧ ((sig.return_type.is_precise = true
        ∨ ∀ targetty, target'.type = some targetty →
            ctx.unify_pairs targetty sig.return_type ≠ some targetty)
        → sig' = sig)
    ∧ target'.type ≠ none := by
  rw [CallConstraint.resolveModel] at h
  rcases hadd : TypeVar.add_type ctx target tname sig.return_type loc
    with e | ⟨t2, r⟩
  · rw [hadd] at h; exact absurd h (by simp)
  · rw [hadd] at h
    simp only [Except.ok.injEq, Prod.mk.injEq] at h
    obtain ⟨rfl, rfl⟩ := h
    have hdef : t2.type ≠ none := by
      rw [TypeVar.add_type] at hadd
      by_cases hl : target.locked
      · rcases htype : target.type with _ | cur
        · simp [hl, htype] at hadd
        · by_cases he : sig.return_type = cur
          · simp [hl, htype, he] at hadd
            rw [← hadd.1, htype]; exact Option.noConfusion
          · cases hc : ctx.can_convert sig.return_type cur <;>
              simp [hl, htype, he, hc] at hadd
            rw [← hadd.1, htype]; exact Option.noConfusion
      · rcases htype : target.type with _ | cur
        · simp [hl, htype] at hadd
          rw [← hadd.1]; exact Option.noConfusion
        · cases hu : ctx.unify_pairs cur sig.return_type <;>
            simp [hl, htype, hu] at hadd
          rw [← hadd.1]; exact Option.noConfusion
    by_cases hp : sig.return_type.is_precise
    · refine ⟨by simp [hp], by simp [hp], ?_, fun _ => by simp [hp], hdef⟩
      intro targetty hpf
      simp [hp] at hpf
    · rcases htype2 : t2.type with _ | targetty
      · exact absurd htype2 hdef
      · by_cases habs : ctx.unify_pairs targetty sig.return_type
            = some targetty
        · refine ⟨by simp [hp, habs], by simp [hp, habs],
            ?_, ?_, by simp⟩
          · intro tt _ htt
            obtain rfl := Option.some.inj htt
            intro _
            simp [hp, habs]
          · rintro (hc | hc)
            · rw [hc] at hp; exact absurd rfl hp
            · exact absurd habs (hc targetty rfl)
        · refine ⟨by simp [hp, habs], by simp [hp, habs],
            ?_, fun _ => by simp [hp, habs], by simp⟩
          intro tt _ htt habs2
          obtain rfl := Option.some.inj htt
          exact absurd habs2 habs

/-- C4 witness: the theorem applied to a concrete imprecise call — a
signature returning `Set(undefined)` stored against a target already typed
`Set(int64)` under the left-biased lattice — where the rewrite fires. -/
theorem claim_c4_witness :
    (({ return_type := .setTy (.atom "int64"), args := [], recvr := none }
        : Signature).args
      = ({ return_type := .setTy .undef, args := [], recvr := none }
        : Signature).args)
    ∧ ((({ return_type := .setTy (.atom "int64"), args := [], recvr := none })
        : Signature).recvr
      = ({ return_type := .setTy .undef, args := [], recvr := none }
        : Signature).recvr) := by
  have h := claim_c4 ctxTriv "t"
    { return_type := .setTy .undef, args := [], recvr := none }
    ⟨some (.setTy (.atom "int64")), false, none⟩ (.functionTy 1) (some 2)
    ⟨some (.setTy (.atom "int64")), false, none⟩
    { return_type := .setTy (.atom "int64"), args := [], recvr := none }
    rfl
  exact ⟨h.1, h.2.1⟩

/-- C5: `TypeInferer.add_type(var, T, loc, unless_locked)` does nothing when
`unless_locked` holds and the cell is locked; otherwise it adds `T` to the
cell and invokes `propagate_refined_type` exactly when the cell's resulting
type differs from its pre-call type; `propagate_refined_type` calls `refine`
on the constraint registered in `refine_map[var]` when one exists (and is a
no-op otherwise); and `Propagate.refine(T)` adds `T` to its source variable's
cell unless that cell is locked, in which case the source is left unchanged.
Each clause is stated on the fueled embedding with enough fuel for the
cascade depth it describes. -/
theorem claim_c5 (ctx : Context) (n : Nat) (s : InferState) (var : String)
    (tp : Ty) (loc : Option Nat) :
    (∀ tv, alistFind s.typevars var = some tv → tv.locked = true →
      TypeInferer.add_type ctx (n+1) s var tp loc true = some (.ok s))
    ∧ (∀ tv tv' u, alistFind s.typevars var = some tv →
        TypeVar.add_type ctx tv var tp loc = .ok (tv', u) →
        some u = tv.type →
        TypeInferer.add_type ctx (n+1) s var tp loc false
          = some (.ok ⟨alistSet s.typevars var tv', s.refine_map⟩))
    ∧ (∀ tv tv' u, alistFind s.typevars var = some tv →
        TypeVar.add_type ctx tv var tp loc = .ok (tv', u) →
        some u ≠ tv.type →
        alistFind s.refine_map var = none →
        TypeInferer.add_type ctx (n+1+1) s var tp loc false
          = some (.ok ⟨alistSet s.typevars var tv', s.refine_map⟩))
    ∧ (∀ tv tv' u src rloc stv, alistFind s.typevars var = some tv →
        TypeVar.add_type ctx tv var tp loc = .ok (tv', u) →
        some u ≠ tv.type →
        alistFind s.refine_map var = some (.propagateCon src rloc) →
        alistFind (alistSet s.typevars var tv') src = some stv →
        stv.locked = true →
        TypeInferer.add_type ctx (n+1+1+1+1) s var tp loc false
          = some (.ok ⟨alistSet s.typevars var tv', s.refine_map⟩))
    ∧ (∀ tv tv' u src rloc stv stv2 u2, alistFind s.typevars var = some tv →
        TypeVar.add_type ctx tv var tp loc = .ok (tv', u) →
        some u ≠ tv.type →
        alistFind s.refine_map var = some (.propagateCon src rloc) →
        alistFind (alistSet s.typevars var tv') src = some stv →
        stv.locked = false →
        TypeVar.add_type ctx stv src u rloc = .ok (stv2, u2) →
        some u2 = stv.type →
        TypeInferer.add_type ctx (n+1+1+1+1) s var tp loc false
          = some (.ok ⟨alistSet (alistSet s.typevars var tv') src stv2,
                       s.refine_map⟩)) := by
  refine ⟨?_, ?_, ?_, ?_, ?_⟩
  · intro tv h1 h2
    simp [TypeInferer.add_type, InferState.getTypevar, h1, h2]
  · intro tv tv' u h1 h2 h3
    simp [TypeInferer.add_type, InferState.getTypevar, h1, h2, ← h3]
  · intro tv tv' u h1 h2 h3 h4
    simp [TypeInferer.add_type, InferState.getTypevar,
      TypeInferer.propagate_refined_type, h1, h2, h3, h4]
  · intro tv tv' u src rloc stv h1 h2 h3 h4 h5 h6
    simp [TypeInferer.add_type, InferState.getTypevar,
      TypeInferer.propagate_refined_type, Refiner.refine,
      h1, h2, h3, h4, h5, h6]
  · intro tv tv' u src rloc stv stv2 u2 h1 h2 h3 h4 h5 h6 h7 h8
    simp [TypeInferer.add_type, InferState.getTypevar,
      TypeInferer.propagate_refined_type, Refiner.refine,
      h1, h2, h3, h4, h5, h6, h7, ← h8]

/-- C5 witness: the theorem's locked-source clause applied concretely — `x`
is refined from `A` to `C` under the right-biased lattice, its registered
`Propagate` refiner targets the locked cell `y`, and `y` is left unchanged. -/
theorem claim_c5_witness :
    TypeInferer.add_type ctxRight 4
        (⟨[("x", ⟨some (.atom "A"), false, none⟩),
           ("y", ⟨some (.atom "B"), true, some 0⟩)],
          [("x", .propagateCon "y" none)]⟩ : InferState)
        "x" (.atom "C") (some 7) false
      = some (.ok ⟨[("x", ⟨some (.atom "C"), false, none⟩),
           ("y", ⟨some (.atom "B"), true, some 0⟩)],
          [("x", .propagateCon "y" none)]⟩) :=
  (claim_c5 ctxRight 0
      (⟨[("x", ⟨some (.atom "A"), false, none⟩),
         ("y", ⟨some (.atom "B"), true, some 0⟩)],
        [("x", .propagateCon "y" none)]⟩ : InferState)
      "x" (.atom "C") (some 7)).2.2.2.1
    ⟨some (.atom "A"), false, none⟩ ⟨some (.atom "C"), false, none⟩
    (.atom "C") "y" none ⟨some (.atom "B"), true, some 0⟩
    (by decide) rfl (by decide) (by decide) (by decide) rfl

/-- C6 counterexample: with zero items the Cartesian product is the single
empty candidate, for which the constraint adds `Tuple(())` — the source
comments "empty tuples fall here as well" — and never a `UniTuple`, contrary
to the claim's "(including the empty product)". -/
theorem claim_c6_counterexample :
    BuildTupleConstraint.fire [] = [Ty.tupleTy TyList.nil]
    ∧ ¬ ∃ t n, Ty.uniTuple t n ∈ BuildTupleConstraint.fire [] := by
  constructor
  · rfl
  · rintro ⟨t, n, h⟩
    rw [show BuildTupleConstraint.fire [] = [Ty.tupleTy TyList.nil] from rfl]
      at h
    simp at h

/-- C6 amended: for every element of the Cartesian product, in order, the
constraint adds `UniTuple(t, n)` when the candidate element tuple is
nonempty and all its elements are equal, and otherwise — the empty candidate
of the empty product included — adds `Tuple` of the candidate element
types. -/
theorem claim_c6_amended (tsets : List (List Ty)) :
    BuildTupleConstraint.fire tsets
      = (itertoolsProduct tsets).map buildTupleStepAmended := by
  rw [BuildTupleConstraint.fire]
  induction itertoolsProduct tsets with
  | nil => rfl
  | cons vals rest ih =>
    cases vals with
    | nil =>
      simp [BuildTupleConstraint.fireAux, buildTupleStepAmended, ih,
        TyList.ofList]
    | cons v0 vs =>
      simp [BuildTupleConstraint.fireAux, buildTupleStepAmended, ih]

/-- C7: `ExhaustIterConstraint` examines each candidate type of the iterator
variable in order: a `BaseTuple` of arity `count` is added to the target; a
`BaseTuple` of any other arity aborts the firing with the wrong-tuple-length
`ValueError` (no further candidate is examined and nothing more is added);
a non-tuple `IterableType` adds `UniTuple(iterator_type.yield_type, count)`;
any other candidate contributes no write and no error; and an empty
candidate list fires without effect. -/
theorem claim_c7 (name : String) (count : Nat) (tp : Ty) (rest : List Ty) :
    (tp.isBaseTuple = true → tp.tupleLen = count →
      ExhaustIterConstraint.fire name count (tp :: rest)
        = (tp :: (ExhaustIterConstraint.fire name count rest).1,
           (ExhaustIterConstraint.fire name count rest).2))
    ∧ (tp.isBaseTuple = true → tp.tupleLen ≠ count →
      ExhaustIterConstraint.fire name count (tp :: rest)
        = ([], some (.other ("ValueError: wrong tuple length for "
            ++ name ++ ": expected " ++ toString count
            ++ ", got " ++ toString tp.tupleLen))))
    ∧ (tp.isBaseTuple = false → tp.isIterable = true →
      ExhaustIterConstraint.fire name count (tp :: rest)
        = (Ty.uniTuple tp.iterYield count
            :: (ExhaustIterConstraint.fire name count rest).1,
           (ExhaustIterConstraint.fire name count rest).2))
    ∧ (tp.isBaseTuple = false → tp.isIterable = false →
      ExhaustIterConstraint.fire name count (tp :: rest)
        = ExhaustIterConstraint.fire name count rest)
    ∧ ExhaustIterConstraint.fire name count [] = ([], none) := by
  refine ⟨?_, ?_, ?_, ?_, rfl⟩
  · intro hb hlen
    rw [ExhaustIterConstraint.fire]
    simp [hb, hlen]
  · intro hb hlen
    rw [ExhaustIterConstraint.fire]
    simp [hb, hlen]
  · intro hb hit
    rw [ExhaustIterConstraint.fire]
    simp [hb, hit]
  · intro hb hit
    rw [ExhaustIterConstraint.fire]
    simp [hb, hit]

/-- C7 witness: a two-element tuple candidate exhausted with count 3 aborts
with the `ValueError`. -/
theorem claim_c7_witness :
    ExhaustIterConstraint.fire "it" 3 [Ty.uniTuple (.atom "int64") 2]
      = ([], some (.other ("ValueError: wrong tuple length for it: expected "
          ++ toString 3 ++ ", got "
          ++ toString (Ty.uniTuple (.atom "int64") 2).tupleLen))) := by
  have h := (claim_c7 "it" 3 (Ty.uniTuple (.atom "int64") 2) []).2.1
    rfl (by decide)
  simpa using h

/-- C8: `ConstraintNetwork.propagate` fires every constraint exactly once,
in insertion order, each at the state the previous firings produced (the
final state is the left fold of the firings); and it returns — never raises —
the list of captured errors, in which a raised `TypingError` appears as-is
and any other exception appears wrapped as an internal `TypingError`
carrying that constraint's location and the traceback text, one entry per
raising constraint, while non-raising constraints contribute nothing. -/
theorem claim_c8 {σ : Type} (cons : List (Constraint σ)) (s : σ) :
    (ConstraintNetwork.propagate cons s).1
      = cons.foldl (fun t c => (c.fire t).1) s
    ∧ (ConstraintNetwork.propagate cons s).2
      = (firedStates s cons).filterMap captureOf := by
  induction cons generalizing s with
  | nil => exact ⟨rfl, rfl⟩
  | cons c rest ih =>
    rw [ConstraintNetwork.propagate, firedStates, List.foldl]
    obtain ⟨ih1, ih2⟩ := ih ((c.fire s).1)
    constructor
    · simpa using ih1
    · rw [List.filterMap]
      rcases hexn : (c.fire s).2 with _ | exn
      · simp [captureOf, hexn]
        exact ih2
      · cases exn with
        | typing e => simpa [captureOf, hexn] using ih2
        | other tb => simpa [captureOf, hexn] using ih2

/-- C9: `PairFirstConstraint` and `PairSecondConstraint` add, in order,
exactly the first (respectively second) component type of every `Pair`
candidate of the pair variable; every non-`Pair` candidate is skipped —
no write to the target and no error (the firing functions are total and
have no exception channel). -/
theorem claim_c9 (cands : List Ty) :
    PairFirstConstraint.fire cands
      = cands.filterMap (fun tp =>
          match tp with | .pair a _ => some a | _ => none)
    ∧ PairSecondConstraint.fire cands
      = cands.filterMap (fun tp =>
          match tp with | .pair _ b => some b | _ => none) := by
  induction cands with
  | nil => exact ⟨rfl, rfl⟩
  | cons tp rest ih =>
    obtain ⟨ih1, ih2⟩ := ih
    constructor
    · rw [PairFirstConstraint.fire.eq_def, List.filterMap]
      cases tp <;> simp [ih1]
    · rw [PairSecondConstraint.fire.eq_def, List.filterMap]
      cases tp <;> simp [ih2]

/-- C10 counterexample: with every argument cell defined, a `Print`
whose vararg resolves to a non-tuple (`int64`) raises the `TypeError` from
`fold_arg_vars` instead of storing what `resolve_call` returns — so "when
all argument cells are defined it stores whatever resolve_call returns" is
not unconditional. -/
theorem claim_c10_counterexample :
    (typevarsRead [("v", ⟨some (.atom "int64"), false, none⟩)] "v").defined
      = true
    ∧ PrintConstraint.fire ctxTriv
        [("v", ⟨some (.atom "int64"), false, none⟩)] [] (some "v") none
      = .error (.other "TypeError: *args in function call should be a tuple")
    := by
  constructor
  · rfl
  · rfl

/-- C10 amended: `PrintConstraint` never raises a `TypingError` at all — in
particular no invalid-call error, unlike `CallConstraint`, whose `resolve`
raises the invalid-usage `TypingError` whenever `resolve_call` returns
`None`.  When every argument cell is defined and the folded vararg (if any)
is a tuple, the constraint stores whatever `resolve_call` (here
`context.resolve_function_type` on the builtin `print`) returns — `None`
included, so the `calltypes` entry filled from `get_call_signature()` can be
`None`.  When some argument cell is undefined it bails, leaving the stored
signature untouched; its only possible exception is the non-tuple-vararg
`TypeError`, which the network captures as an internal error. -/
theorem claim_c10_amended (ctx : Context) (tvs : List (String × TypeVar))
    (args : List String) (vararg : Option String)
    (prev : Option (Option Signature)) :
    (∀ pos_args kw_args,
      fold_arg_vars tvs args vararg [] = .ok (some (pos_args, kw_args)) →
      PrintConstraint.fire ctx tvs args vararg prev
        = .ok (some (ctx.resolve_function_type printFnty pos_args kw_args)))
    ∧ (fold_arg_vars tvs args vararg [] = .ok none →
      PrintConstraint.fire ctx tvs args vararg prev = .ok prev)
    ∧ (∀ e, PrintConstraint.fire ctx tvs args vararg prev = .error e →
        ∀ te, e ≠ .typing te)
    ∧ (∀ targetName target fnty loc sig',
        CallConstraint.resolveModel ctx targetName none target fnty loc
          = sig' → sig' = .error ⟨.invalidUsage fnty, loc⟩) := by
  refine ⟨?_, ?_, ?_, ?_⟩
  · intro pos_args kw_args hfold
    rw [PrintConstraint.fire, hfold]
  · intro hfold
    rw [PrintConstraint.fire, hfold]
  · intro e hfire te
    rw [PrintConstraint.fire] at hfire
    rcases hfold : fold_arg_vars tvs args vararg [] with e2 | r
    · rw [hfold] at hfire
      obtain rfl : e2 = e := by simpa using hfire
      simp only [fold_arg_vars.eq_def] at hfold
      split at hfold
      · simp at hfold
      · split at hfold
        · split at hfold
          · split at hfold
            · simp at hfold
            · obtain rfl := Except.error.inj hfold
              exact fun h => Exn.noConfusion h
          · obtain rfl := Except.error.inj hfold
            exact fun h => Exn.noConfusion h
        · simp at hfold
    · rw [hfold] at hfire
      rcases r with _ | ⟨pos, kw⟩
      · exact absurd hfire (by simp)
      · exact absurd hfire (by simp)
  · intro targetName target fnty loc sig' h
    rw [CallConstraint.resolveModel] at h
    exact h.symm

/-- C10 witness: a `Print` with one defined positional argument under a
lattice that cannot resolve `print` stores `None` as its signature. -/
theorem claim_c10_witness :
    PrintConstraint.fire ctxTriv [("a", ⟨some (.atom "int64"), false, none⟩)]
        ["a"] none none
      = .ok (some (ctxTriv.resolve_function_type printFnty
          [.atom "int64"] [])) :=
  (claim_c10_amended ctxTriv [("a", ⟨some (.atom "int64"), false, none⟩)]
    ["a"] none none).1 [.atom "int64"] [] rfl
